import Mathlib

/-!
Verification of the sharded client-side pagination core
(`data-worker.worker.ts` and `grouped-input.component.ts`):
a shallow embedding of the partitioner (`shardData`), the shard
locator (`getShard`), the worker message handler, and the
pagination controller, followed by theorems about them.
-/

namespace ShardedPagination

/-- A data row (`InputRow` in `sharded-input.model.ts`). -/
structure InputRow where
  id : Int
  vmName : String
  ipAddress : String
  subnetMask : String
  defaultGateway : String
deriving DecidableEq, Repr

/-- A named group of rows (`InputGroup`). -/
structure InputGroup where
  groupName : String
  rows : List InputRow
deriving DecidableEq, Repr

/-- A shard (`Shard`): an id plus the groups whose rows fall in its window. -/
structure Shard where
  shardId : Int
  groups : List InputGroup
deriving DecidableEq, Repr

/-- Normalisation of one index argument of JavaScript `Array.prototype.slice`
on an array of length `len`: negative indices count from the end and are
clamped below by 0; non-negative indices are clamped above by `len`. -/
def jsIndex (len : Nat) (i : Int) : Nat :=
  if i < 0 then ((len : Int) + i).toNat else min i.toNat len

/-- JavaScript `l.slice(start, stop)`. -/
def jsSlice (l : List α) (start stop : Int) : List α :=
  (l.take (jsIndex l.length stop)).drop (jsIndex l.length start)

/-- The expression `groups.reduce((acc, group) => [...acc, ...group.rows], [])`:
the flattened row sequence, in group-then-row order. -/
def flattenRows (groups : List InputGroup) : List InputRow :=
  groups.foldl (fun acc group => acc ++ group.rows) []

/-- The shared group-reconstruction step of `shardData` and `getShard`:
`groups.map(group => ({groupName, rows: shardRows.filter(row =>
group.rows.some(gRow => gRow.id === row.id))})).filter(g => g.rows.length > 0)`. -/
def shardGroupsOf (groups : List InputGroup) (shardRows : List InputRow) :
    List InputGroup :=
  (groups.map (fun group =>
    { groupName := group.groupName
      rows := shardRows.filter
        (fun row => group.rows.any (fun gRow => gRow.id = row.id)) })).filter
    (fun group => 0 < group.rows.length)

/-- The value `Math.ceil(totalRows / shardSize)` for a positive integral `shardSize`. -/
def numberOfShards (totalRows shardSize : Nat) : Nat :=
  (totalRows + shardSize - 1) / shardSize

/-- The partitioner `shardData(groups, shardSize)` of
`data-worker.worker.ts`. -/
def shardData (groups : List InputGroup) (shardSize : Nat) : List Shard :=
  let rows := flattenRows groups
  let totalRows := rows.length
  (List.range (numberOfShards totalRows shardSize)).map (fun (shardId : Nat) =>
    let start : Int := (shardId : Int) * shardSize
    let shardRows := jsSlice rows start (start + shardSize)
    { shardId := (shardId : Int), groups := shardGroupsOf groups shardRows })

/-- The shard locator `getShard(shardId, shardSize, groups)` of
`data-worker.worker.ts`.  `shardId` is an arbitrary integer: the slice
bounds may be negative, in which case JavaScript `slice` counts from the
end of the flattened array. -/
def getShard (shardId : Int) (shardSize : Nat) (groups : List InputGroup) :
    Shard :=
  let start : Int := shardId * shardSize
  let rows := jsSlice (flattenRows groups) start (start + shardSize)
  { shardId := shardId, groups := shardGroupsOf groups rows }

/-- A worker request message `{action, payload}`; the payload fields used
by either action are carried flat. -/
structure WorkerMessage where
  action : String
  groups : List InputGroup
  shardSize : Nat
  shardId : Int
deriving Repr

/-- The possible worker responses: a shard list (for `shardData`),
a single shard (for `getShard`), or an error record. -/
inductive WorkerResult where
  | shards (s : List Shard)
  | shard (s : Shard)
  | error (msg : String)
deriving DecidableEq, Repr

/-- The worker's `message` event handler: dispatch on `action`,
defaulting to `{error: 'Unknown action'}`. -/
def handleMessage (m : WorkerMessage) : WorkerResult :=
  if m.action = "shardData" then
    .shards (shardData m.groups m.shardSize)
  else if m.action = "getShard" then
    .shard (getShard m.shardId m.shardSize m.groups)
  else
    .error "Unknown action"

/-- The mutable state of `GroupedInputComponent`
(`grouped-input.component.ts`): the current page, rows per page, the
shard size of the loaded `ShardedInputGroups`, and the currently loaded
shard (`undefined` until a load completes, hence `Option`). -/
structure ControllerState where
  currentPage : Int
  rowsPerPage : Int
  shardSize : Int
  currentShard : Option Shard
deriving DecidableEq, Repr

/-- The method `loadShard(shardId)`: replace `currentShard` with whatever the
storage service returns for that id.  The asynchronous storage lookup is
abstracted as a function `fetch : Int → Option Shard`. -/
def loadShard (fetch : Int → Option Shard) (shardId : Int)
    (s : ControllerState) : ControllerState :=
  { s with currentShard := fetch shardId }

/-- The method `nextPage()`: compute the target shard id
`Math.floor((currentPage * rowsPerPage) / shardSize)`, load it when it
differs from the loaded shard's id, then increment `currentPage`.
The second component records the shard id of the load request issued,
if any. -/
def nextPage (fetch : Int → Option Shard) (s : ControllerState) :
    ControllerState × Option Int :=
  let nextPageShardId := Int.fdiv (s.currentPage * s.rowsPerPage) s.shardSize
  if s.currentShard.map Shard.shardId ≠ some nextPageShardId then
    let s := loadShard fetch nextPageShardId s
    ({ s with currentPage := s.currentPage + 1 }, some nextPageShardId)
  else
    ({ s with currentPage := s.currentPage + 1 }, none)

/-- The method `prevPage()`: no-op unless `currentPage > 1`; otherwise decrement
`currentPage`, then compute
`Math.floor(((currentPage - 1) * rowsPerPage) / shardSize)` with the
decremented page and load it when it differs from the loaded shard's id.
The second component records the load request issued, if any. -/
def prevPage (fetch : Int → Option Shard) (s : ControllerState) :
    ControllerState × Option Int :=
  if s.currentPage > 1 then
    let s := { s with currentPage := s.currentPage - 1 }
    let prevPageShardId := Int.fdiv ((s.currentPage - 1) * s.rowsPerPage) s.shardSize
    if s.currentShard.map Shard.shardId ≠ some prevPageShardId then
      (loadShard fetch prevPageShardId s, some prevPageShardId)
    else
      (s, none)
  else
    (s, none)

/-- The method `setRowsPerPage(rows)`: replace `rowsPerPage`, reset `currentPage`
to 1 and reload shard 0. -/
def setRowsPerPage (fetch : Int → Option Shard) (rows : Int)
    (s : ControllerState) : ControllerState × Option Int :=
  (loadShard fetch 0 { s with rowsPerPage := rows, currentPage := 1 }, some 0)

/-- The component's field initializers together with `initialize()`:
`currentPage = 1`, `rowsPerPage = 10`, `shardedInputGroups.shardSize = 1000`,
then `loadShard(0)`. -/
def initState (fetch : Int → Option Shard) : ControllerState :=
  loadShard fetch 0
    { currentPage := 1, rowsPerPage := 10, shardSize := 1000,
      currentShard := none }

/-- One observable controller transition: a `nextPage`, `prevPage` or
`setRowsPerPage` call. -/
inductive Step (fetch : Int → Option Shard) :
    ControllerState → ControllerState → Prop where
  | next (s : ControllerState) : Step fetch s (nextPage fetch s).1
  | prev (s : ControllerState) : Step fetch s (prevPage fetch s).1
  | setRpp (rows : Int) (s : ControllerState) :
      Step fetch s (setRowsPerPage fetch rows s).1

/-- The states reachable from the initial state by controller calls. -/
def Reachable (fetch : Int → Option Shard) (s : ControllerState) : Prop :=
  Relation.ReflTransGen (Step fetch) (initState fetch) s

/-- Iterated `nextPage` calls (state component only). -/
def nextPageIter (fetch : Int → Option Shard) :
    Nat → ControllerState → ControllerState
  | 0, s => s
  | k + 1, s => (nextPage fetch (nextPageIter fetch k s)).1

/-! ### Basic lemmas about the embedding -/

theorem foldl_append_rows (groups : List InputGroup) (init : List InputRow) :
    groups.foldl (fun acc group => acc ++ group.rows) init =
      init ++ groups.flatMap InputGroup.rows := by
  induction groups generalizing init with
  | nil => simp
  | cons g gs ih => simp [ih, List.append_assoc]

theorem flattenRows_eq_flatMap (groups : List InputGroup) :
    flattenRows groups = groups.flatMap InputGroup.rows := by
  simpa using foldl_append_rows groups []

theorem jsSlice_nonneg (l : List α) (a b : Int) (ha : 0 ≤ a) (hb : 0 ≤ b) :
    jsSlice l a b = (l.take b.toNat).drop a.toNat := by
  unfold jsSlice jsIndex
  rw [if_neg (by omega), if_neg (by omega)]
  have ht : l.take (min b.toNat l.length) = l.take b.toNat :=
    List.take_eq_take.mpr (by omega)
  rw [ht]
  rcases le_or_lt a.toNat l.length with h | h
  · rw [min_eq_left h]
  · rw [List.drop_eq_nil_of_le (by simp [List.length_take]; omega),
      List.drop_eq_nil_of_le (by simp [List.length_take]; omega)]

theorem jsSlice_window (rows : List InputRow) (shardSize i : Nat) :
    jsSlice rows ((i : Int) * shardSize) ((i : Int) * shardSize + shardSize) =
      (rows.drop (i * shardSize)).take shardSize := by
  rw [jsSlice_nonneg _ _ _ (by positivity) (by positivity)]
  have h1 : ((i : Int) * shardSize).toNat = i * shardSize := by
    rw [← Int.natCast_mul, Int.toNat_natCast]
  have h2 : ((i : Int) * shardSize + shardSize).toNat = i * shardSize + shardSize := by
    rw [← Int.natCast_mul, ← Int.natCast_add, Int.toNat_natCast]
  rw [h1, h2, List.drop_take]
  congr 1
  omega

theorem shardData_eq (groups : List InputGroup) (shardSize : Nat) :
    shardData groups shardSize =
      (List.range (numberOfShards (flattenRows groups).length shardSize)).map
        (fun shardId =>
          { shardId := (shardId : Int)
            groups := shardGroupsOf groups
              (((flattenRows groups).drop (shardId * shardSize)).take shardSize) }) := by
  simp only [shardData]
  refine List.map_congr_left (fun i _ => ?_)
  rw [jsSlice_window]

theorem shardData_length (groups : List InputGroup) (shardSize : Nat) :
    (shardData groups shardSize).length =
      numberOfShards (flattenRows groups).length shardSize := by
  rw [shardData_eq]
  simp

theorem shardGroupsOf_nil (groups : List InputGroup) :
    shardGroupsOf groups [] = [] := by
  rw [shardGroupsOf, List.filter_eq_nil_iff]
  intro g hg
  rcases List.mem_map.mp hg with ⟨g0, _, rfl⟩
  simp

theorem mem_shardGroupsOf_pos {groups : List InputGroup}
    {shardRows : List InputRow} {g : InputGroup}
    (h : g ∈ shardGroupsOf groups shardRows) : 0 < g.rows.length := by
  have := List.of_mem_filter h
  simpa using this

theorem le_numberOfShards_mul (totalRows shardSize : Nat) (hs : 0 < shardSize) :
    totalRows ≤ numberOfShards totalRows shardSize * shardSize := by
  unfold numberOfShards
  have h1 := Nat.div_add_mod (totalRows + shardSize - 1) shardSize
  have h2 := Nat.mod_lt (totalRows + shardSize - 1) hs
  rw [Nat.mul_comm]
  generalize hq : shardSize * ((totalRows + shardSize - 1) / shardSize) = q at h1
  omega

/-! ### Claim theorems -/

/-- C3. No shard produced by `shardData` or `getShard` contains a group
with an empty row list: every group in any output shard has at least one
row. -/
theorem no_empty_groups (groups : List InputGroup) (shardSize : Nat)
    (shardId : Int) (sh : Shard) (g : InputGroup) :
    (sh ∈ shardData groups shardSize → g ∈ sh.groups → 0 < g.rows.length) ∧
    (g ∈ (getShard shardId shardSize groups).groups → 0 < g.rows.length) := by
  constructor
  · intro hsh hg
    rw [shardData_eq] at hsh
    rcases List.mem_map.mp hsh with ⟨i, _, rfl⟩
    exact mem_shardGroupsOf_pos hg
  · intro hg
    exact mem_shardGroupsOf_pos hg

/-- Witness for C3 on a concrete one-row dataset. -/
theorem no_empty_groups_witness :
    0 < (InputGroup.mk "g" [⟨1, "", "", "", ""⟩]).rows.length :=
  (no_empty_groups [⟨"g", [⟨1, "", "", "", ""⟩]⟩] 1 0
      ⟨0, [⟨"g", [⟨1, "", "", "", ""⟩]⟩]⟩ ⟨"g", [⟨1, "", "", "", ""⟩]⟩).1
    (by decide) (by decide)

/-- C5. For a positive `shardSize` and any `shardId` at or beyond
`ceil(totalRows / shardSize)`, `getShard` returns `{shardId, groups: []}`
rather than failing. -/
theorem getShard_out_of_range (groups : List InputGroup) (shardSize : Nat)
    (hs : 0 < shardSize) (shardId : Int)
    (h : (numberOfShards (flattenRows groups).length shardSize : Int) ≤ shardId) :
    getShard shardId shardSize groups = { shardId := shardId, groups := [] } := by
  simp only [getShard]
  have hlen : ((flattenRows groups).length : Int) ≤ shardId * shardSize := by
    have h1 : ((flattenRows groups).length : Int) ≤
        (numberOfShards (flattenRows groups).length shardSize : Int) * shardSize := by
      have := le_numberOfShards_mul (flattenRows groups).length shardSize hs
      exact_mod_cast Nat.cast_le.mpr this
    have h2 : (numberOfShards (flattenRows groups).length shardSize : Int) * shardSize ≤
        shardId * shardSize :=
      mul_le_mul_of_nonneg_right h (by positivity)
    omega
  have hslice : jsSlice (flattenRows groups) (shardId * shardSize)
      (shardId * shardSize + shardSize) = [] := by
    rw [jsSlice_nonneg _ _ _ (by omega) (by omega)]
    apply List.drop_eq_nil_of_le
    have := List.length_take ((shardId * shardSize + shardSize).toNat) (flattenRows groups)
    omega
  rw [hslice, shardGroupsOf_nil]

/-- Witness for C5: shard id 7 of a one-row dataset with shard size 3. -/
theorem getShard_out_of_range_witness :
    getShard 7 3 [⟨"g", [⟨1, "", "", "", ""⟩]⟩] = { shardId := 7, groups := [] } :=
  getShard_out_of_range [⟨"g", [⟨1, "", "", "", ""⟩]⟩] 3 (by decide) 7 (by decide)

/-- C8. The worker handler answers unknown actions with
`{error: 'Unknown action'}` and answers the two known actions with the
shard list and the single shard respectively. -/
theorem handleMessage_dispatch (m : WorkerMessage) :
    (m.action ≠ "shardData" → m.action ≠ "getShard" →
      handleMessage m = .error "Unknown action") ∧
    (m.action = "shardData" →
      handleMessage m = .shards (shardData m.groups m.shardSize)) ∧
    (m.action = "getShard" →
      handleMessage m = .shard (getShard m.shardId m.shardSize m.groups)) := by
  unfold handleMessage
  refine ⟨fun h1 h2 => ?_, fun h => ?_, fun h => ?_⟩
  · simp [h1, h2]
  · simp [h]
  · simp [h]

/-- Witness for C8 at three concrete messages. -/
theorem handleMessage_dispatch_witness :
    handleMessage ⟨"frobnicate", [], 1, 0⟩ = .error "Unknown action" ∧
    handleMessage ⟨"shardData", [], 1, 0⟩ = .shards (shardData [] 1) ∧
    handleMessage ⟨"getShard", [], 1, 5⟩ = .shard (getShard 5 1 []) :=
  ⟨(handleMessage_dispatch ⟨"frobnicate", [], 1, 0⟩).1 (by decide) (by decide),
   (handleMessage_dispatch ⟨"shardData", [], 1, 0⟩).2.1 (by decide),
   (handleMessage_dispatch ⟨"getShard", [], 1, 5⟩).2.2 (by decide)⟩

/-- The five-row single-group dataset used to exhibit `getShard`'s
negative-index behaviour. -/
def c9Group : InputGroup :=
  ⟨"g", [⟨1, "", "", "", ""⟩, ⟨2, "", "", "", ""⟩, ⟨3, "", "", "", ""⟩,
         ⟨4, "", "", "", ""⟩, ⟨5, "", "", "", ""⟩]⟩

/-- C9. On a 5-row dataset, `getShard(-2, 2, groups)` returns the rows at
flattened positions 1 and 2 (JavaScript `slice` counts negative offsets
from the end), so negative shard ids are not uniformly mapped to the
empty shard. -/
theorem getShard_negative_id :
    getShard (-2) 2 [c9Group] =
      { shardId := -2,
        groups := [⟨"g", ((flattenRows [c9Group]).drop 1).take 2⟩] } ∧
    (getShard (-2) 2 [c9Group]).groups ≠ [] := by decide

/-- C4 counterexample: with `groups = []` and `shardSize = 1`
(so `shardSize > totalRows = 0`), `shardData` returns zero shards,
not exactly one. -/
theorem shardData_empty_counterexample :
    (flattenRows ([] : List InputGroup)).length = 0 ∧
    shardData ([] : List InputGroup) 1 = [] ∧
    (shardData ([] : List InputGroup) 1).length ≠ 1 := by decide

/-- C4 (amended). For a dataset with at least one row and a `shardSize`
strictly greater than `totalRows`, `shardData` yields exactly one shard —
whose row window is the whole flattened sequence — and every input row
appears in some group of that shard. -/
theorem shardData_single_shard (groups : List InputGroup) (shardSize : Nat)
    (hpos : 0 < (flattenRows groups).length)
    (h : (flattenRows groups).length < shardSize) :
    shardData groups shardSize =
      [{ shardId := 0, groups := shardGroupsOf groups (flattenRows groups) }] ∧
    ∀ r ∈ flattenRows groups,
      ∃ g ∈ shardGroupsOf groups (flattenRows groups), r ∈ g.rows := by
  constructor
  · have hn : numberOfShards (flattenRows groups).length shardSize = 1 := by
      unfold numberOfShards
      exact Nat.div_eq_of_lt_le (by omega) (by omega)
    rw [shardData_eq, hn, show List.range 1 = [0] from rfl]
    simp [List.take_of_length_le (le_of_lt h)]
  · intro r hr
    rcases List.mem_flatMap.mp ((flattenRows_eq_flatMap groups) ▸ hr)
      with ⟨g0, hg0, hrg0⟩
    refine ⟨⟨g0.groupName, (flattenRows groups).filter
      (fun row => g0.rows.any (fun gRow => gRow.id = row.id))⟩, ?_, ?_⟩
    · apply List.mem_filter.mpr
      constructor
      · exact List.mem_map.mpr ⟨g0, hg0, rfl⟩
      · have hmem : r ∈ (flattenRows groups).filter
            (fun row => g0.rows.any (fun gRow => gRow.id = row.id)) :=
          List.mem_filter.mpr ⟨hr, by simp; exact ⟨r, hrg0, rfl⟩⟩
        simpa using List.length_pos.mpr (List.ne_nil_of_mem hmem)
    · exact List.mem_filter.mpr ⟨hr, by simp; exact ⟨r, hrg0, rfl⟩⟩

/-- Witness for C4 (amended): a two-row dataset with shard size 3. -/
theorem shardData_single_shard_witness :
    shardData [⟨"g", [⟨1, "", "", "", ""⟩, ⟨2, "", "", "", ""⟩]⟩] 3 =
      [{ shardId := 0,
         groups := shardGroupsOf [⟨"g", [⟨1, "", "", "", ""⟩, ⟨2, "", "", "", ""⟩]⟩]
           (flattenRows [⟨"g", [⟨1, "", "", "", ""⟩, ⟨2, "", "", "", ""⟩]⟩]) }] :=
  (shardData_single_shard [⟨"g", [⟨1, "", "", "", ""⟩, ⟨2, "", "", "", ""⟩]⟩] 3
    (by decide) (by decide)).1

theorem nextPage_currentPage (fetch : Int → Option Shard) (s : ControllerState) :
    (nextPage fetch s).1.currentPage = s.currentPage + 1 := by
  simp only [nextPage]
  split <;> simp [loadShard]

theorem prevPage_currentPage (fetch : Int → Option Shard) (s : ControllerState) :
    (prevPage fetch s).1.currentPage =
      if 1 < s.currentPage then s.currentPage - 1 else s.currentPage := by
  simp only [prevPage]
  split
  · split <;> simp_all [loadShard]
  · simp_all

/-- C7. `prevPage` is a no-op (state unchanged, no load issued) when
`currentPage ≤ 1`; otherwise it decrements `currentPage` by exactly one,
leaves `rowsPerPage` and `shardSize` alone, and issues a shard load
exactly when `floor(((currentPage - 1) * rowsPerPage) / shardSize)` —
computed with the already-decremented page — differs from the loaded
shard's id. -/
theorem prevPage_spec (fetch : Int → Option Shard) (s : ControllerState) :
    (s.currentPage ≤ 1 → prevPage fetch s = (s, none)) ∧
    (1 < s.currentPage →
      (prevPage fetch s).1.currentPage = s.currentPage - 1 ∧
      (prevPage fetch s).1.rowsPerPage = s.rowsPerPage ∧
      (prevPage fetch s).1.shardSize = s.shardSize ∧
      ((prevPage fetch s).2 ≠ none ↔
        s.currentShard.map Shard.shardId ≠
          some (Int.fdiv ((s.currentPage - 1 - 1) * s.rowsPerPage) s.shardSize))) := by
  constructor
  · intro h
    simp only [prevPage]
    rw [if_neg (by omega)]
  · intro h
    simp only [prevPage]
    rw [if_pos (by omega)]
    by_cases hc : s.currentShard.map Shard.shardId =
        some (Int.fdiv ((s.currentPage - 1 - 1) * s.rowsPerPage) s.shardSize)
    · simp [hc, loadShard]
    · simp [hc, loadShard]

/-- Witness for C7: the no-op case at `currentPage = 1` and the
decrement case at `currentPage = 2`. -/
theorem prevPage_spec_witness :
    prevPage (fun _ => none) ⟨1, 10, 1000, none⟩ = (⟨1, 10, 1000, none⟩, none) ∧
    (prevPage (fun _ => none) ⟨2, 10, 1000, none⟩).1.currentPage = 1 :=
  ⟨(prevPage_spec (fun _ => none) ⟨1, 10, 1000, none⟩).1 (by decide),
   ((prevPage_spec (fun _ => none) ⟨2, 10, 1000, none⟩).2 (by decide)).1⟩

/-- C10. Every controller state reachable from the initial state by
`nextPage` / `prevPage` / `setRowsPerPage` calls has `currentPage ≥ 1`. -/
theorem reachable_currentPage_ge_one (fetch : Int → Option Shard)
    (s : ControllerState) (h : Reachable fetch s) : 1 ≤ s.currentPage := by
  induction h with
  | refl => simp [initState, loadShard]
  | tail _ step ih =>
    cases step with
    | next t => rw [nextPage_currentPage]; omega
    | prev t =>
      rw [prevPage_currentPage]
      split <;> omega
    | setRpp rows t => simp [setRowsPerPage, loadShard]

/-- Witness for C10 at the initial state of a trivial storage service. -/
theorem reachable_currentPage_ge_one_witness :
    1 ≤ (initState (fun _ => none)).currentPage :=
  reachable_currentPage_ge_one (fun _ => none) (initState (fun _ => none))
    Relation.ReflTransGen.refl

theorem nextPage_same_shard (fetch : Int → Option Shard) (s : ControllerState)
    (h10 : s.rowsPerPage = 10) (h1000 : s.shardSize = 1000) (sh : Shard)
    (hsh : s.currentShard = some sh) (h0 : sh.shardId = 0)
    (hp : 1 ≤ s.currentPage) (hp99 : s.currentPage ≤ 99) :
    nextPage fetch s = ({ s with currentPage := s.currentPage + 1 }, none) := by
  have hdiv : Int.fdiv (s.currentPage * s.rowsPerPage) s.shardSize = 0 := by
    rw [h10, h1000, Int.fdiv_eq_ediv _ (by omega)]
    exact Int.ediv_eq_zero_of_lt (by omega) (by omega)
  have hcond : ¬ (s.currentShard.map Shard.shardId ≠
      some (Int.fdiv (s.currentPage * s.rowsPerPage) s.shardSize)) := by
    simp [hsh, h0, hdiv]
  simp only [nextPage]
  rw [if_neg hcond]

theorem nextPageIter_stays (fetch : Int → Option Shard) (sh : Shard)
    (h0 : sh.shardId = 0) (i : Nat) (hi : i ≤ 99) :
    nextPageIter fetch i ⟨1, 10, 1000, some sh⟩ =
      ⟨1 + (i : Int), 10, 1000, some sh⟩ := by
  induction i with
  | zero => simp [nextPageIter]
  | succ k ih =>
    rw [nextPageIter, ih (by omega)]
    rw [nextPage_same_shard fetch _ rfl rfl sh rfl h0
      (by show (1 : Int) ≤ 1 + (k : Int); omega)
      (by show (1 : Int) + (k : Int) ≤ 99; omega)]
    simp only [ControllerState.mk.injEq, and_true]
    push_cast
    ring

/-- C6. Starting from `currentPage = 1`, `rowsPerPage = 10`,
`shardSize = 1000` with shard 0 loaded: each of the first 99 `nextPage()`
calls issues no shard load and leaves shard 0 loaded (the computed target
shard id stays 0), while the 100th call computes target shard id 1 and
issues a load for it. -/
theorem nextPage_shard_boundary (fetch : Int → Option Shard) (sh : Shard)
    (h0 : sh.shardId = 0) :
    (∀ i : Nat, i < 99 →
      (nextPage fetch (nextPageIter fetch i ⟨1, 10, 1000, some sh⟩)).2 = none ∧
      (nextPageIter fetch (i + 1) ⟨1, 10, 1000, some sh⟩).currentShard = some sh ∧
      Int.fdiv ((nextPageIter fetch i ⟨1, 10, 1000, some sh⟩).currentPage *
          (nextPageIter fetch i ⟨1, 10, 1000, some sh⟩).rowsPerPage)
        (nextPageIter fetch i ⟨1, 10, 1000, some sh⟩).shardSize = 0) ∧
    Int.fdiv ((nextPageIter fetch 99 ⟨1, 10, 1000, some sh⟩).currentPage *
        (nextPageIter fetch 99 ⟨1, 10, 1000, some sh⟩).rowsPerPage)
      (nextPageIter fetch 99 ⟨1, 10, 1000, some sh⟩).shardSize = 1 ∧
    (nextPage fetch (nextPageIter fetch 99 ⟨1, 10, 1000, some sh⟩)).2 = some 1 := by
  have hfd : ∀ p : Int, 1 ≤ p → p ≤ 99 → Int.fdiv (p * 10) 1000 = 0 := by
    intro p h1 h2
    rw [Int.fdiv_eq_ediv _ (by omega)]
    exact Int.ediv_eq_zero_of_lt (by omega) (by omega)
  refine ⟨fun i hi => ?_, ?_, ?_⟩
  · rw [nextPageIter_stays fetch sh h0 i (by omega),
      nextPageIter_stays fetch sh h0 (i + 1) (by omega)]
    refine ⟨?_, rfl, ?_⟩
    · rw [nextPage_same_shard fetch _ rfl rfl sh rfl h0
        (by show (1 : Int) ≤ 1 + (i : Int); omega)
        (by show (1 : Int) + (i : Int) ≤ 99; omega)]
    · exact hfd (1 + (i : Int)) (by omega) (by omega)
  · rw [nextPageIter_stays fetch sh h0 99 (by omega)]
    show Int.fdiv ((1 + ((99 : Nat) : Int)) * 10) 1000 = 1
    decide
  · rw [nextPageIter_stays fetch sh h0 99 (by omega)]
    have ht : Int.fdiv ((1 + ((99 : Nat) : Int)) * 10) 1000 = 1 := by decide
    simp only [nextPage, ht]
    rw [if_pos (by simp [h0])]

/-- Witness for C6 with a trivial storage service and the empty shard 0. -/
theorem nextPage_shard_boundary_witness :
    (nextPage (fun _ => none)
      (nextPageIter (fun _ => none) 99 ⟨1, 10, 1000, some ⟨0, []⟩⟩)).2 = some 1 :=
  (nextPage_shard_boundary (fun _ => none) ⟨0, []⟩ rfl).2.2

/-- C1. For a positive `shardSize` and any in-range shard id,
`getShard`'s single-shard recomputation equals the corresponding element
of the full partition `shardData`. -/
theorem getShard_eq_shardData_get (groups : List InputGroup) (shardSize : Nat)
    (hs : 0 < shardSize) (shardId : Nat)
    (h : shardId < numberOfShards (flattenRows groups).length shardSize) :
    getShard (shardId : Int) shardSize groups =
      (shardData groups shardSize).get
        ⟨shardId, by rw [shardData_length]; exact h⟩ := by
  simp only [List.get_eq_getElem, shardData, List.getElem_map, List.getElem_range,
    getShard]

/-- Witness for C1: shard 0 of a one-row dataset with shard size 1. -/
theorem getShard_eq_shardData_get_witness :
    getShard ((0 : Nat) : Int) 1 [⟨"g", [⟨1, "", "", "", ""⟩]⟩] =
      (shardData [⟨"g", [⟨1, "", "", "", ""⟩]⟩] 1).get ⟨0, by decide⟩ :=
  getShard_eq_shardData_get [⟨"g", [⟨1, "", "", "", ""⟩]⟩] 1 (by decide) 0 (by decide)

theorem sum_filter_lengths (gs : List InputGroup) :
    ((gs.filter (fun g => 0 < g.rows.length)).map (fun g => g.rows.length)).sum =
      (gs.map (fun g => g.rows.length)).sum := by
  induction gs with
  | nil => simp
  | cons g gs ih =>
    rw [List.filter_cons]
    by_cases hg : 0 < g.rows.length
    · rw [if_pos (by simpa using hg)]
      simp only [List.map_cons, List.sum_cons]
      rw [ih]
    · rw [if_neg (by simpa using hg)]
      simp only [List.map_cons, List.sum_cons]
      rw [ih]
      omega

theorem sum_map_length_filter {α β : Type} (xs : List α) (p : α → β → Bool)
    (ys : List β) :
    (xs.map (fun x => (ys.filter (p x)).length)).sum =
      (ys.map (fun y => xs.countP (fun x => p x y))).sum := by
  induction ys with
  | nil => simp
  | cons y ys ih =>
    have step : ∀ zs : List α,
        (zs.map (fun x => ((y :: ys).filter (p x)).length)).sum =
          zs.countP (fun x => p x y) +
            (zs.map (fun x => (ys.filter (p x)).length)).sum := by
      intro zs
      induction zs with
      | nil => simp
      | cons z zs ihz =>
        simp only [List.map_cons, List.sum_cons, List.countP_cons]
        rw [ihz]
        by_cases hz : p z y
        · rw [List.filter_cons_of_pos (by simpa using hz), List.length_cons,
            if_pos hz]
          omega
        · rw [List.filter_cons_of_neg (by simpa using hz), if_neg hz]
          omega
    simp only [List.map_cons, List.sum_cons]
    rw [step, ih]

theorem countP_id_eq_one (l : List InputRow)
    (hnd : (l.map InputRow.id).Nodup) (r : InputRow) (hr : r ∈ l) :
    l.countP (fun x => x.id = r.id) = 1 := by
  induction l with
  | nil => cases hr
  | cons x xs ih =>
    rw [List.map_cons, List.nodup_cons] at hnd
    rcases List.mem_cons.mp hr with rfl | hr2
    · rw [List.countP_cons_of_pos _ _ (by simp)]
      have hz : xs.countP (fun x2 => x2.id = r.id) = 0 := by
        rw [List.countP_eq_zero]
        intro a ha
        simp only [decide_eq_true_eq]
        intro hid
        exact hnd.1 (hid ▸ List.mem_map.mpr ⟨a, ha, rfl⟩)
      omega
    · have hx : ¬ (x.id = r.id) := by
        intro hid
        exact hnd.1 (List.mem_map.mpr ⟨r, hr2, hid.symm⟩)
      rw [List.countP_cons_of_neg _ _ (by simpa using hx)]
      exact ih hnd.2 hr2

theorem countP_le_sum_countP (gs : List InputGroup) (q : InputRow → Bool) :
    gs.countP (fun g => g.rows.any q) ≤
      (gs.map (fun g => g.rows.countP q)).sum := by
  induction gs with
  | nil => simp
  | cons g gs ih =>
    simp only [List.countP_cons, List.map_cons, List.sum_cons]
    by_cases hg : g.rows.any q
    · have hpos : 0 < g.rows.countP q := by
        rcases List.any_eq_true.mp hg with ⟨x, hx, hqx⟩
        exact List.countP_pos_iff.mpr ⟨x, hx, hqx⟩
      simp only [hg, if_pos]
      omega
    · simp only [hg, Bool.false_eq_true, ite_false]
      omega

theorem sum_countP_rows (gs : List InputGroup) (q : InputRow → Bool) :
    (gs.map (fun g => g.rows.countP q)).sum =
      (gs.flatMap InputGroup.rows).countP q := by
  induction gs with
  | nil => simp
  | cons g gs ih => simp [List.flatMap_cons, List.countP_append, ih]

theorem countP_groups_eq_one (groups : List InputGroup)
    (huniq : ((flattenRows groups).map InputRow.id).Nodup)
    (r : InputRow) (hr : r ∈ flattenRows groups) :
    groups.countP (fun g => g.rows.any (fun gRow => gRow.id = r.id)) = 1 := by
  have hub := countP_le_sum_countP groups (fun gRow => gRow.id = r.id)
  rw [sum_countP_rows, ← flattenRows_eq_flatMap,
    countP_id_eq_one (flattenRows groups) huniq r hr] at hub
  have hlb : 0 < groups.countP
      (fun g => g.rows.any (fun gRow => gRow.id = r.id)) := by
    rcases List.mem_flatMap.mp ((flattenRows_eq_flatMap groups) ▸ hr)
      with ⟨g0, hg0, hrg0⟩
    exact List.countP_pos_iff.mpr ⟨g0, hg0, by simp; exact ⟨r, hrg0, rfl⟩⟩
  omega

theorem shardGroupsOf_length_sum (groups : List InputGroup)
    (huniq : ((flattenRows groups).map InputRow.id).Nodup)
    (shardRows : List InputRow)
    (hsub : ∀ r ∈ shardRows, r ∈ flattenRows groups) :
    ((shardGroupsOf groups shardRows).map (fun g => g.rows.length)).sum =
      shardRows.length := by
  unfold shardGroupsOf
  rw [sum_filter_lengths, List.map_map]
  have hmap : ((groups.map (fun group =>
      (shardRows.filter
        (fun row => group.rows.any (fun gRow => gRow.id = row.id))).length)).sum =
      (shardRows.map (fun r =>
        groups.countP (fun g => g.rows.any (fun gRow => gRow.id = r.id)))).sum) :=
    sum_map_length_filter groups
      (fun g row => g.rows.any (fun gRow => gRow.id = row.id)) shardRows
  have hone : shardRows.map (fun r =>
      groups.countP (fun g => g.rows.any (fun gRow => gRow.id = r.id))) =
      shardRows.map (fun _ => 1) :=
    List.map_congr_left (fun r hrw =>
      countP_groups_eq_one groups huniq r (hsub r hrw))
  show ((groups.map (fun group =>
      (shardRows.filter
        (fun row => group.rows.any (fun gRow => gRow.id = row.id))).length)).sum =
    shardRows.length)
  rw [hmap, hone]
  simp [List.map_const]

theorem join_windows (l : List InputRow) (s : Nat) (n : Nat) :
    ((List.range n).map (fun i => (l.drop (i * s)).take s)).flatten =
      l.take (n * s) := by
  induction n with
  | zero => simp
  | succ n ih =>
    rw [List.range_succ, List.map_append, List.flatten_append, ih]
    simp only [List.map_cons, List.map_nil, List.flatten_cons, List.flatten_nil,
      List.append_nil]
    rw [Nat.succ_mul, List.take_add]

theorem sum_window_lengths (l : List InputRow) (s : Nat) (hs : 0 < s) :
    ((List.range (numberOfShards l.length s)).map
      (fun i => ((l.drop (i * s)).take s).length)).sum = l.length := by
  have hjoin := congrArg List.length
    (join_windows l s (numberOfShards l.length s))
  rw [List.length_flatten, List.map_map, List.length_take,
    min_eq_right (le_numberOfShards_mul l.length s hs)] at hjoin
  simpa [Function.comp_def] using hjoin

/-- C2. When row ids are globally unique, the total row count over all
groups of all shards produced by `shardData` equals the input's total
row count: each row lands in exactly one shard, none duplicated or
lost. -/
theorem shardData_row_conservation (groups : List InputGroup) (shardSize : Nat)
    (hs : 0 < shardSize)
    (huniq : ((flattenRows groups).map InputRow.id).Nodup) :
    ((shardData groups shardSize).map (fun sh =>
      (sh.groups.map (fun g => g.rows.length)).sum)).sum =
      (flattenRows groups).length := by
  rw [shardData_eq, List.map_map]
  have hcong : ∀ i ∈ List.range (numberOfShards (flattenRows groups).length shardSize),
      ((shardGroupsOf groups
          (((flattenRows groups).drop (i * shardSize)).take shardSize)).map
        (fun g => g.rows.length)).sum =
      (((flattenRows groups).drop (i * shardSize)).take shardSize).length := by
    intro i _
    exact shardGroupsOf_length_sum groups huniq _
      (fun r hrw => List.mem_of_mem_drop (List.mem_of_mem_take hrw))
  rw [show ((List.range (numberOfShards (flattenRows groups).length shardSize)).map
      ((fun sh : Shard => (sh.groups.map (fun g => g.rows.length)).sum) ∘
        (fun i : Nat =>
          { shardId := (i : Int)
            groups := shardGroupsOf groups
              (((flattenRows groups).drop (i * shardSize)).take shardSize) }))) =
      ((List.range (numberOfShards (flattenRows groups).length shardSize)).map
        (fun i => (((flattenRows groups).drop (i * shardSize)).take shardSize).length))
    from List.map_congr_left (fun i hi => hcong i hi)]
  exact sum_window_lengths (flattenRows groups) shardSize hs

/-- Witness for C2 on a two-group dataset with unique ids and shard size 2. -/
theorem shardData_row_conservation_witness :
    ((shardData [⟨"a", [⟨1, "", "", "", ""⟩, ⟨2, "", "", "", ""⟩]⟩,
                 ⟨"b", [⟨3, "", "", "", ""⟩]⟩] 2).map (fun sh =>
      (sh.groups.map (fun g => g.rows.length)).sum)).sum =
      (flattenRows [⟨"a", [⟨1, "", "", "", ""⟩, ⟨2, "", "", "", ""⟩]⟩,
                    ⟨"b", [⟨3, "", "", "", ""⟩]⟩]).length :=
  shardData_row_conservation
    [⟨"a", [⟨1, "", "", "", ""⟩, ⟨2, "", "", "", ""⟩]⟩, ⟨"b", [⟨3, "", "", "", ""⟩]⟩]
    2 (by decide) (by decide)

end ShardedPagination
